import Mathlib

set_option maxHeartbeats 1000000

/-! Shallow embedding of the REST ETL pipeline of `src/main.py`:
scalar values, tabular datasets, the transformation engine
(`clean_join_key`, `safe_cast_column`, `safe_merge`,
`apply_transformations`, `format_output_columns`), the request planner
(`build_request_urls`), and the paginated fetcher with credential
renewal (`fetch_data_with_pagination` and the loops of `main`). -/

/-- A scalar cell of a tabular record: string, integer, float
(modelled as a rational), boolean, or null (NaN). -/
inductive Value where
  | vstr (s : String)
  | vint (n : Int)
  | vnum (q : ℚ)
  | vbool (b : Bool)
  | vnull
deriving DecidableEq

/-- Python `str()` of a scalar, as pandas `astype(str)` applies it
cell-wise; a null cell stringifies to the marker string "nan". -/
def pyStr : Value → String
  | .vstr s => s
  | .vint n => toString n
  | .vnum q => if q.den = 1 then toString q.num ++ ".0" else toString q
  | .vbool b => if b then "True" else "False"
  | .vnull => "nan"

/-- Whether a cell is null (`Series.dropna` / `fillna` test). -/
def isNull : Value → Bool
  | .vnull => true
  | _ => false

/-- Numeric value of a digit list, most significant digit first. -/
def digitsVal (l : List Char) : Nat :=
  l.foldl (fun a c => a * 10 + (c.toNat - 48)) 0

/-- Parse an unsigned decimal literal `digits[.digits]`. -/
def parseUnsigned (s : List Char) : Option ℚ :=
  let ip := s.takeWhile Char.isDigit
  let rest := s.dropWhile Char.isDigit
  match rest with
  | [] => if ip.isEmpty then none else some (digitsVal ip)
  | c :: frac =>
    if c = '.' ∧ frac.all Char.isDigit ∧ (ip ≠ [] ∨ frac ≠ []) then
      some ((digitsVal ip : ℚ) + (digitsVal frac : ℚ) / ((10 : ℚ) ^ frac.length))
    else none

/-- Strip leading and trailing whitespace from a character list. -/
def stripWs (l : List Char) : List Char :=
  ((l.dropWhile Char.isWhitespace).reverse.dropWhile Char.isWhitespace).reverse

/-- Models `pandas.to_numeric(errors="coerce")` on a string: an
optional sign followed by a plain decimal literal, surrounding
whitespace ignored; anything else coerces to null. -/
def parseDecimal (s : String) : Option ℚ :=
  match stripWs s.toList with
  | [] => none
  | c :: rest =>
    if c = '-' then (parseUnsigned rest).map (fun q => -q)
    else if c = '+' then parseUnsigned rest
    else parseUnsigned (c :: rest)

/-- `pandas.to_numeric(errors="coerce")` applied to one scalar. -/
def parseNumeric : Value → Option ℚ
  | .vstr s => parseDecimal s
  | .vint n => some (n : ℚ)
  | .vnum q => some q
  | .vbool b => some (if b then 1 else 0)
  | .vnull => none

/-- Truncation toward zero, as numpy `astype(int)` on a float. -/
def ratTrunc (q : ℚ) : Int := Int.tdiv q.num (q.den : Int)

/-- Python `str.lower()` on the basic latin letters of a dtype tag. -/
def pyLower (s : String) : String := String.mk (s.data.map Char.toLower)

instance {ε α : Type} [DecidableEq ε] [DecidableEq α] : DecidableEq (Except ε α) :=
  fun x y =>
  match x, y with
  | .error a, .error b =>
    if h : a = b then .isTrue (by rw [h]) else .isFalse (by intro he; injection he; contradiction)
  | .ok a, .ok b =>
    if h : a = b then .isTrue (by rw [h]) else .isFalse (by intro he; injection he; contradiction)
  | .error _, .ok _ => .isFalse (by intro he; injection he)
  | .ok _, .error _ => .isFalse (by intro he; injection he)

/-- A pandas DataFrame: ordered column labels, and rows whose cells
align positionally with `cols`. -/
structure DF where
  cols : List String
  rows : List (List Value)
deriving DecidableEq

/-- Index of the first column with the given label. -/
def colIdx (cols : List String) (c : String) : Option Nat :=
  cols.findIdx? (· == c)

/-- The cell of `row` under the column labelled `c`. -/
def cellAt (cols : List String) (c : String) (row : List Value) : Value :=
  match colIdx cols c with
  | some i => row.getD i Value.vnull
  | none => Value.vnull

/-- `df[c]` as a list of cells; `none` models the pandas `KeyError`
raised when the label is absent. -/
def getColumn (df : DF) (c : String) : Option (List Value) :=
  (colIdx df.cols c).map fun i => df.rows.map fun row => row.getD i Value.vnull

/-- `df[c] = f(df[c])`: rewrite the cells of the column labelled `c`. -/
def mapCol (df : DF) (c : String) (f : Value → Value) : DF :=
  { cols := df.cols
    rows := df.rows.map fun row =>
      List.zipWith (fun lbl v => if lbl = c then f v else v) df.cols row }

/-- `Series.replace(["nan", "<NA>", "None"], "")` on one stringified
cell. -/
def replaceMarkers (s : String) : String :=
  if s = "nan" ∨ s = "<NA>" ∨ s = "None" then "" else s

/-- `Series.fillna(d)` on one cell. -/
def fillWith (d : Value) (v : Value) : Value :=
  if isNull v then d else v

/-- The normalized join key of a cell: stringified, with every null
marker collapsed to the empty string. -/
def normKey (v : Value) : String := replaceMarkers (pyStr v)

/-- `clean_join_key` of `src/main.py`: when the key column exists,
stringify it, replace the null-marker strings by "", and fill any
remaining nulls with "". -/
def clean_join_key (df : DF) (key_column : String) : DF :=
  if df.cols.contains key_column = false then df
  else mapCol df key_column fun v =>
    fillWith (Value.vstr "") (Value.vstr (replaceMarkers (pyStr v)))

/-- `safe_cast_column` of `src/main.py`: cast one column with
per-value fallbacks; a missing column is a no-op. -/
def safe_cast_column (df : DF) (column dtype : String) : DF :=
  if df.cols.contains column = false then df
  else
    let d := pyLower dtype
    if d = "string" then
      mapCol df column fun v => fillWith (Value.vstr "") (Value.vstr (pyStr v))
    else if d = "int64" ∨ d = "int" then
      mapCol df column fun v =>
        match parseNumeric v with
        | some q => Value.vint (ratTrunc q)
        | none => Value.vint (-1)
    else if d = "float64" ∨ d = "float" then
      mapCol df column fun v =>
        match parseNumeric v with
        | some q => Value.vnum q
        | none => Value.vnum 0
    else mapCol df column fun v => Value.vstr (pyStr v)

/-- The rows of the right table whose key cell (position `j`) equals
the key value `k`. -/
def rightMatches (r : DF) (j : Nat) (k : Value) : List (List Value) :=
  r.rows.filter fun rrow => rrow.getD j Value.vnull == k

/-- `left.merge(right, left_on, right_on, how="left")` for frames
with disjoint column labels: every left row is kept in order, matched
right rows fan out in right-table order, and an unmatched left row is
padded with nulls for the right columns. `none` models the `KeyError`
on a missing key column. -/
def mergeLeft (l r : DF) (left_key right_key : String) : Option DF :=
  match colIdx l.cols left_key, colIdx r.cols right_key with
  | some i, some j =>
    some
      { cols := l.cols ++ r.cols
        rows := l.rows.flatMap fun lrow =>
          let ms := rightMatches r j (lrow.getD i Value.vnull)
          if ms.isEmpty then [lrow ++ List.replicate r.cols.length Value.vnull]
          else ms.map fun rrow => lrow ++ rrow }
  | _, _ => none

/-- `safe_merge` of `src/main.py`: clean both join key columns, then
left outer merge on them. -/
def safe_merge (left_df right_df : DF) (left_key right_key : String) : Option DF :=
  mergeLeft (clean_join_key left_df left_key) (clean_join_key right_df right_key)
    left_key right_key

/-- `df.rename(columns={old: new})`: relabel matching columns; cells
are untouched, and a missing label is a no-op. -/
def renameCol (df : DF) (old new : String) : DF :=
  { cols := df.cols.map fun c => if c = old then new else c
    rows := df.rows }

/-- The dataset store: endpoint name to materialized table. -/
abbrev Store := List (String × DF)

/-- One step of `apply_transformations` of `src/main.py`: dispatch on
the operation tag; a tag other than RENAME, CAST, JOIN falls through
every branch and leaves the working table unchanged. -/
def applyOp (dataframes : Store) (df : DF) (op : String × List String) :
    Except String DF :=
  if op.1 = "RENAME" then
    match op.2 with
    | [old, new] => .ok (renameCol df old new)
    | _ => .error "RENAME: wrong arity"
  else if op.1 = "CAST" then
    match op.2 with
    | [column, dtype] => .ok (safe_cast_column df column dtype)
    | _ => .error "CAST: wrong arity"
  else if op.1 = "JOIN" then
    match op.2 with
    | [table, lk, rk] =>
      match List.lookup table dataframes with
      | some rdf =>
        match safe_merge df rdf lk rk with
        | some m => .ok m
        | none => .error "KeyError: join key"
      | none => .error "KeyError: table"
    | _ => .error "JOIN: wrong arity"
  else .ok df

/-- `apply_transformations` of `src/main.py`: fold the declared
operation list over the working table, in order. -/
def apply_transformations (df : DF) (operations : List (String × List String))
    (dataframes : Store) : Except String DF :=
  match operations with
  | [] => .ok df
  | op :: rest =>
    match applyOp dataframes df op with
    | .ok df2 => apply_transformations df2 rest dataframes
    | .error e => .error e

/-- `format_output_columns` of `src/main.py`: keep the mapped source
columns that exist as renamed series and rebuild a frame from them;
with no kept series, `pd.DataFrame([]).T` is the empty frame. -/
def format_output_columns (df : DF) (column_mappings : List (String × String)) : DF :=
  let kept := column_mappings.filter fun m => df.cols.contains m.1
  if kept.isEmpty then { cols := [], rows := [] }
  else
    { cols := kept.map Prod.snd
      rows := df.rows.map fun row => kept.map fun m => cellAt df.cols m.1 row }

/-- Order-preserving deduplication (pandas `Series.unique`). -/
def uniqueFirstAux (seen : List String) : List String → List String
  | [] => []
  | x :: xs =>
    if x ∈ seen then uniqueFirstAux seen xs
    else x :: uniqueFirstAux (x :: seen) xs

/-- First-seen-order deduplication of a value list. -/
def uniqueFirst (l : List String) : List String := uniqueFirstAux [] l

/-- `dataframes["df_users"][driving_col].dropna().astype(str).unique()
.tolist()` exactly as `build_request_urls` computes it: the frame it
reads is the literal `"df_users"` entry of the store. -/
def drivingIds (dataframes : Store) (driving_col : String) : Option (List String) :=
  (List.lookup "df_users" dataframes).bind fun df =>
    (getColumn df driving_col).map fun col =>
      uniqueFirst ((col.filter fun v => !(isNull v)).map pyStr)

/-- The slices `id_list[i:i+c]` for `i in range(0, len(id_list), c)`,
by fuel-guarded recursion on the list length. -/
def chunkListAux (c : Nat) : Nat → List α → List (List α)
  | 0, _ => []
  | _ + 1, [] => []
  | fuel + 1, x :: xs => (x :: xs).take c :: chunkListAux c fuel ((x :: xs).drop c)

/-- Partition a list into consecutive chunks of size `c`. -/
def chunkList (c : Nat) (xs : List α) : List (List α) :=
  chunkListAux c xs.length xs

/-- A single-quote character, for OData literal predicates. -/
def quoteCh : String := String.singleton (Char.ofNat 39)

/-- An endpoint configuration (an `ENDPOINT_CONFIGS` entry). The
`driving_view_col_name` field is doubly optional: the outer layer is
presence of the dict key, the inner one a possible `None` value. -/
structure Config where
  select : List String
  filter : String
  key_filter : Option String
  driving_view_col_name : Option (Option String)
deriving DecidableEq

/-- The URL built for one chunk of driving values: OR-ed equality
tests, AND-ed with the endpoint filter when non-empty, then the
select clause. -/
def chunkUrl (base_url endpoint : String) (cfg : Config) (key_filter_col : String)
    (chunk : List String) : String :=
  let id_filter :=
    String.intercalate " or "
      (chunk.map fun val => key_filter_col ++ " eq " ++ quoteCh ++ val ++ quoteCh)
  let filter_str :=
    if cfg.filter ≠ "" then id_filter ++ " and " ++ cfg.filter else id_filter
  let url := base_url ++ endpoint ++ "?$filter=" ++ filter_str
  if cfg.select ≠ [] then url ++ "&$select=" ++ String.intercalate "," cfg.select
  else url

/-- The single URL of the non-dependent branch of
`build_request_urls`: filter clause if non-empty, then the select
clause, "&"-separated only when a filter clause precedes it. -/
def simpleUrl (base_url endpoint : String) (cfg : Config) : String :=
  let url := base_url ++ endpoint ++ "?"
  let url := if cfg.filter ≠ "" then url ++ "$filter=" ++ cfg.filter else url
  if cfg.select ≠ [] then
    url ++ (if cfg.filter ≠ "" then "&" else "") ++ "$select=" ++
      String.intercalate "," cfg.select
  else url

/-- `build_request_urls` of `src/main.py`. The dependent branch runs
when `key_filter` is truthy and the `driving_view_col_name` key is
present; `none` models the `KeyError` raised when the driving frame or
its column is missing. -/
def build_request_urls (base_url endpoint : String) (cfg : Config)
    (dataframes : Store) : Option (List String) :=
  match cfg.key_filter, cfg.driving_view_col_name with
  | some k, some dOpt =>
    if k = "" then some [simpleUrl base_url endpoint cfg]
    else
      match dOpt with
      | some driving_col =>
        (drivingIds dataframes driving_col).map fun id_list =>
          (chunkList 10 id_list).map (chunkUrl base_url endpoint cfg k)
      | none => none
  | _, _ => some [simpleUrl base_url endpoint cfg]

/-- The spec's description (§6) of the non-dependent descriptor: a
predicate clause and a field-selection clause, each kept only when
non-empty. -/
def specClauses (cfg : Config) : List String :=
  (if cfg.filter = "" then [] else ["$filter=" ++ cfg.filter]) ++
  (if cfg.select = [] then [] else ["$select=" ++ String.intercalate "," cfg.select])

/-- The spec's clause combination: clauses joined with "&" exactly
between consecutive non-empty clauses. -/
def ampJoin : List String → String
  | [] => ""
  | [c] => c
  | c :: cs => c ++ "&" ++ ampJoin cs

/-- A fetched record: one JSON object of a response `value` array. -/
abbrev Record := List (String × Value)

/-- An HTTP response as the fetcher consumes it: status code, the
`value` records, and the optional `@odata.nextLink`. -/
structure Resp where
  status : Nat
  value : List Record
  nextLink : Option String
deriving DecidableEq

/-- The shared mutable token context: `tok` is the bearer token
currently held in the `headers` dict, `next` the token the provider
hands out on the next `get_access_token` call (fresh tokens modelled
as an increasing counter). -/
structure St where
  tok : Nat
  next : Nat
deriving DecidableEq

/-- A fetch failure: endpoint name and HTTP status code. -/
abbrev Err := String × Nat

/-- A request-trace entry: the URL issued and the bearer token used. -/
abbrev TraceEntry := String × Nat

/-- One iteration of the fetch loop of `fetch_data_with_pagination`:
issue the request; on a 401, refresh the token into the shared state
and retry the same URL once; a non-200 outcome after that is fatal.
Returns the accepted response, the updated token state, and the trace
of requests issued. -/
def pageStep (serve : String → Nat → Resp) (endpoint_name url : String) (st : St) :
    Except Err (Resp × St × List TraceEntry) :=
  let response := serve url st.tok
  if response.status = 401 then
    let st2 : St := { tok := st.next, next := st.next + 1 }
    let retried := serve url st2.tok
    if retried.status ≠ 200 then .error (endpoint_name, retried.status)
    else .ok (retried, st2, [(url, st.tok), (url, st2.tok)])
  else if response.status ≠ 200 then .error (endpoint_name, response.status)
  else .ok (response, st, [(url, st.tok)])

/-- The `while url:` pagination loop of `fetch_data_with_pagination`,
with explicit fuel; records accumulate across pages and the token
state threads through (the in-place `headers` mutation). -/
def fetchLoop (serve : String → Nat → Resp) (endpoint_name : String) :
    Nat → Option String → St → Except Err (List Record × St × List TraceEntry)
  | 0, _, st => .ok ([], st, [])
  | _ + 1, none, st => .ok ([], st, [])
  | fuel + 1, some url, st =>
    if url = "" then .ok ([], st, [])
    else
      match pageStep serve endpoint_name url st with
      | .error e => .error e
      | .ok (response, st2, tr) =>
        match fetchLoop serve endpoint_name fuel response.nextLink st2 with
        | .error e => .error e
        | .ok (recs, st3, tr2) => .ok (response.value ++ recs, st3, tr ++ tr2)

/-- `fetch_data_with_pagination` of `src/main.py`, for one planner
descriptor. -/
def fetch_data_with_pagination (serve : String → Nat → Resp) (fuel : Nat)
    (url : String) (endpoint_name : String) (st : St) :
    Except Err (List Record × St × List TraceEntry) :=
  fetchLoop serve endpoint_name fuel (some url) st

/-- The per-endpoint descriptor loop of `main`: fetch every planned
URL sequentially, concatenating records, threading the shared headers
state from one descriptor to the next. -/
def runUrls (serve : String → Nat → Resp) (fuel : Nat) (endpoint_name : String) :
    List String → St → Except Err (List Record × St × List TraceEntry)
  | [], st => .ok ([], st, [])
  | url :: rest, st =>
    match fetch_data_with_pagination serve fuel url endpoint_name st with
    | .error e => .error e
    | .ok (recs, st2, tr) =>
      match runUrls serve fuel endpoint_name rest st2 with
      | .error e => .error e
      | .ok (recs2, st3, tr2) => .ok (recs ++ recs2, st3, tr ++ tr2)

/-- The endpoint loop of `main`: endpoints fetched in configuration
order, all sharing the one mutable headers dict. -/
def runEndpoints (serve : String → Nat → Resp) (fuel : Nat) :
    List (String × List String) → St → Except Err (St × List TraceEntry)
  | [], st => .ok (st, [])
  | (name, urls) :: rest, st =>
    match runUrls serve fuel name urls st with
    | .error e => .error e
    | .ok (_, st2, tr) =>
      match runEndpoints serve fuel rest st2 with
      | .error e => .error e
      | .ok (st3, tr2) => .ok (st3, tr ++ tr2)

/-- The number of token refreshes a fetch performed, read off the
token-supply counter; `none` when the fetch failed. -/
def refreshesOf (stIn : St) (x : Except Err (List Record × St × List TraceEntry)) :
    Option Nat :=
  match x with
  | .ok (_, st2, _) => some (st2.next - stIn.next)
  | .error _ => none

/-- What claim C5 asserts of one merge result `m`: left-then-right
columns; every left row kept in order, fanning out once per matching
right row; unmatched left rows padded with nulls; and membership in
the result governed exactly by equality of the cleaned key cells. -/
def JoinSpec (l r : DF) (lk rk : String) (m : DF) : Prop :=
  m.cols = l.cols ++ r.cols ∧
  m.rows.length =
    ((clean_join_key l lk).rows.map fun lrow =>
      max 1 ((clean_join_key r rk).rows.filter fun rrow =>
        cellAt (clean_join_key r rk).cols rk rrow ==
          cellAt (clean_join_key l lk).cols lk lrow).length).sum ∧
  (∀ lrow ∈ (clean_join_key l lk).rows, ∃ rest, lrow ++ rest ∈ m.rows) ∧
  (∀ lrow ∈ (clean_join_key l lk).rows, ∀ rrow ∈ (clean_join_key r rk).rows,
    cellAt (clean_join_key l lk).cols lk lrow =
      cellAt (clean_join_key r rk).cols rk rrow →
    lrow ++ rrow ∈ m.rows) ∧
  (∀ row ∈ m.rows, ∃ lrow, lrow ∈ (clean_join_key l lk).rows ∧
    ((((clean_join_key r rk).rows.filter fun rrow =>
        cellAt (clean_join_key r rk).cols rk rrow ==
          cellAt (clean_join_key l lk).cols lk lrow) = [] ∧
      row = lrow ++ List.replicate r.cols.length Value.vnull) ∨
    (∃ rrow, rrow ∈ (clean_join_key r rk).rows ∧
      cellAt (clean_join_key r rk).cols rk rrow =
        cellAt (clean_join_key l lk).cols lk lrow ∧
      row = lrow ++ rrow)))

/-- Tokens along a request trace: bounded below by the starting
bearer token, bounded above by the final one, never decreasing, with
the token-supply counter moving forward and staying ahead of the
bearer token. -/
def TraceTokens (stIn stOut : St) (tr : List TraceEntry) : Prop :=
  stIn.tok ≤ stOut.tok ∧ stIn.next ≤ stOut.next ∧ stOut.tok < stOut.next ∧
  List.Pairwise (fun a b : TraceEntry => a.2 ≤ b.2) tr ∧
  ∀ e ∈ tr, stIn.tok ≤ e.2 ∧ e.2 ≤ stOut.tok

/-- The `order_items` entry of `VIEW_CONFIGS` in
`src/Config/Master_Viewpoints_config.py`: a dependent fetch whose
driving values are documented to come from the orders table. -/
def orderItemsCfg : Config :=
  { select := ["item_id", "order_id", "product_id", "product_name", "category",
               "quantity", "unit_price", "discount_applied"]
    filter := ""
    key_filter := some "order_id"
    driving_view_col_name := some (some "order_id") }

/-- A store in the state the pipeline would reach before fetching
`order_items`: a users/customers frame (no `order_id` column) and an
orders frame that does carry `order_id` values. -/
def c2Store : Store :=
  [("df_users", ⟨["customer_id"], [[Value.vstr "c1"], [Value.vstr "c2"]]⟩),
   ("df_orders", ⟨["order_id"], [[Value.vstr "o1"], [Value.vstr "o2"]]⟩)]

/-- A one-column, one-row working table. -/
def c3DF : DF := ⟨["a"], [[Value.vint 1]]⟩

/-- A column holding the values ["7", "abc", null]. -/
def c6IntDF : DF := ⟨["c"], [[Value.vstr "7"], [Value.vstr "abc"], [Value.vnull]]⟩

/-- A column holding a single null. -/
def c6NullDF : DF := ⟨["c"], [[Value.vnull]]⟩

/-- A two-row table with only column "a". -/
def c7DF : DF := ⟨["a"], [[Value.vint 1], [Value.vint 2]]⟩

/-- Left table of the spec's join example: keys ["1", null, "3"]. -/
def c5Left : DF := ⟨["k"], [[Value.vstr "1"], [Value.vnull], [Value.vstr "3"]]⟩

/-- Right table of the spec's join example: keys ["1", "nan", "3"]. -/
def c5Right : DF := ⟨["k2"], [[Value.vstr "1"], [Value.vstr "nan"], [Value.vstr "3"]]⟩

/-- The merged result of the spec's join example: rows 1 and 3 match
their equal keys, and the null-marker rows match through the common
normalized key "". -/
def c5Merged : DF :=
  ⟨["k", "k2"],
   [[Value.vstr "1", Value.vstr "1"], [Value.vstr "", Value.vstr ""],
    [Value.vstr "3", Value.vstr "3"]]⟩

/-- A non-dependent endpoint config with a filter and two selected
columns. -/
def c8Cfg : Config := ⟨["a", "b"], "f", none, none⟩

/-- A dependent config driven by column "id" with chunk-relevant
sizes. -/
def c4Cfg : Config := ⟨["order_id", "user_id"], "", some "user_id", some (some "id")⟩

/-- A store whose `df_users` frame carries twelve distinct ids with
one duplicate and one null mixed in. -/
def c4Store : Store :=
  [("df_users",
    ⟨["id"],
     [[Value.vint 0], [Value.vint 1], [Value.vint 2], [Value.vint 3],
      [Value.vint 4], [Value.vint 5], [Value.vint 0], [Value.vnull],
      [Value.vint 6], [Value.vint 7], [Value.vint 8], [Value.vint 9],
      [Value.vint 10], [Value.vint 11]]⟩)]

/-- The deduplicated driving values of `c4Store`. -/
def c4Ids : List String :=
  ["0", "1", "2", "3", "4", "5", "6", "7", "8", "9", "10", "11"]

/-- A server on which the first request of each of the two pages of
descriptor "p1" is answered 401 with the stale token and 200 with the
fresh one: each page triggers its own token refresh. -/
def c1Serve : String → Nat → Resp := fun u t =>
  if u = "p1" ∧ t = 0 then ⟨401, [], none⟩
  else if u = "p1" ∧ t = 1 then ⟨200, [], some "p2"⟩
  else if u = "p2" ∧ t = 1 then ⟨401, [], none⟩
  else if u = "p2" ∧ t = 2 then ⟨200, [], none⟩
  else ⟨500, [], none⟩

/-- A server that answers 401 to every token: the retry after the
refresh fails again. -/
def c1BadServe : String → Nat → Resp := fun _ _ => ⟨401, [], none⟩

/-- A run of two endpoints with one URL each; the first request is
401 on the stale token 0 and succeeds with the refreshed token 1,
which the second endpoint's request then carries. -/
def c10Serve : String → Nat → Resp := fun u t =>
  if u = "u1" ∧ t = 0 then ⟨401, [], none⟩
  else if u = "u1" ∧ t = 1 then ⟨200, [], none⟩
  else if u = "u2" ∧ t = 1 then ⟨200, [], none⟩
  else ⟨500, [], none⟩

/-- The endpoint/URL plan of the `c10Serve` scenario. -/
def c10Endpoints : List (String × List String) := [("e1", ["u1"]), ("e2", ["u2"])]

/-- A one-column, one-row working table for the rename round trip. -/
def c9DF : DF := ⟨["a"], [[Value.vint 1]]⟩

/-- C2: refuted by the code at the `order_items` configuration. The
planner always reads the driving values from the store's literal
`"df_users"` entry; for `order_items` the referenced driving column
`order_id` lives in the orders frame, so the lookup in the users
frame fails (a pandas `KeyError`, modelled as `none`) even though the
orders frame holds the values. -/
theorem c2_driving_frame_hardcoded :
    build_request_urls "https://api/" "order_items" orderItemsCfg c2Store = none ∧
    (List.lookup "df_orders" c2Store).bind (fun df => getColumn df "order_id") ≠
      none := by
  decide

/-- C3 (counterexample): an operation list holding only the unknown
tag FROBNICATE leaves the working table unchanged and raises nothing,
where the claim demands an immediate configuration error. -/
theorem c3_unknown_tag_counterexample :
    apply_transformations c3DF [("FROBNICATE", [])] [] = .ok c3DF := by
  decide

/-- C3 (amended): an operation whose tag is none of RENAME, CAST,
JOIN is silently skipped: the dispatch step returns the working table
unchanged and the fold continues with the remaining operations. -/
theorem c3_unknown_tag_skipped (df : DF) (dataframes : Store) (tag : String)
    (args : List String) (rest : List (String × List String))
    (h1 : tag ≠ "RENAME") (h2 : tag ≠ "CAST") (h3 : tag ≠ "JOIN") :
    applyOp dataframes df (tag, args) = .ok df ∧
    apply_transformations df ((tag, args) :: rest) dataframes =
      apply_transformations df rest dataframes := by
  have hop : applyOp dataframes df (tag, args) = .ok df := by
    simp [applyOp, h1, h2, h3]
  exact ⟨hop, by simp [apply_transformations, hop]⟩

/-- Witness for `c3_unknown_tag_skipped` at the FROBNICATE input. -/
theorem c3_unknown_tag_skipped_witness :
    ("FROBNICATE" ≠ "RENAME") ∧
    (applyOp [] c3DF ("FROBNICATE", []) = .ok c3DF ∧
      apply_transformations c3DF [("FROBNICATE", [])] [] =
        apply_transformations c3DF [] []) :=
  ⟨by decide,
   c3_unknown_tag_skipped c3DF [] "FROBNICATE" [] []
     (by decide) (by decide) (by decide)⟩

/-- C6: evaluation at the claim's inputs. Casting to int64 behaves as
claimed (["7", "abc", null] becomes [7, -1, -1]) and a missing column
is a no-op, but casting a null cell to string yields the stringified
null marker "nan", not the claimed empty string: `astype(str)` runs
before `fillna("")`, which is then left with nothing to fill. -/
theorem c6_cast_null_string_eval :
    safe_cast_column c6IntDF "c" "int64" =
      ⟨["c"], [[Value.vint 7], [Value.vint (-1)], [Value.vint (-1)]]⟩ ∧
    safe_cast_column c6NullDF "missing" "int64" = c6NullDF ∧
    safe_cast_column c6NullDF "c" "string" = ⟨["c"], [[Value.vstr "nan"]]⟩ ∧
    Value.vstr "nan" ≠ Value.vstr "" := by
  decide

/-- C7 (counterexample): when none of the mapped source columns
exists, the formatter returns the empty frame, so the row count drops
from 2 to 0 instead of being preserved. -/
theorem c7_rowcount_counterexample :
    ¬ (format_output_columns c7DF [("x", "X")]).rows.length = c7DF.rows.length := by
  decide

/-- C1 (counterexample): a two-page descriptor whose every page is
first answered 401 completes successfully after two token refreshes,
where the claim allows at most one refresh per descriptor. -/
theorem c1_two_refreshes_counterexample :
    refreshesOf ⟨0, 1⟩
      (fetch_data_with_pagination c1Serve 5 "p1" "endpoint" ⟨0, 1⟩) = some 2 ∧
    ¬ (2 ≤ 1) := by
  decide

/-- Renaming an absent source label leaves the table unchanged. -/
theorem renameCol_absent (df : DF) (old new : String) (h : old ∉ df.cols) :
    renameCol df old new = df := by
  obtain ⟨cols, rows⟩ := df
  simp only [DF.cols] at h
  simp only [renameCol, DF.mk.injEq, and_true]
  have h2 : ∀ c ∈ cols, (if c = old then new else c) = id c := by
    intro c hc
    have hne : c ≠ old := fun he => h (he ▸ hc)
    simp [hne]
  rw [List.map_congr_left h2, List.map_id]

/-- Renaming `a` to `b` and back restores the labels when `b` was not
a label already. -/
theorem renameCol_roundtrip (df : DF) (a b : String) (hb : b ∉ df.cols) :
    renameCol (renameCol df a b) b a = df := by
  obtain ⟨cols, rows⟩ := df
  simp only [DF.cols] at hb
  simp only [renameCol, List.map_map, DF.mk.injEq, and_true]
  have h2 : ∀ c ∈ cols,
      ((fun c => if c = b then a else c) ∘ fun c => if c = a then b else c) c = id c := by
    intro c hc
    have hcb : c ≠ b := fun he => hb (he ▸ hc)
    by_cases hca : c = a
    · simp [hca]
    · simp [hca, hcb]
  rw [List.map_congr_left h2, List.map_id]

/-- C9: through the engine, Rename(a, b) then Rename(b, a) restores
the working table exactly when b is not already a column, and a
Rename whose old column is absent is a no-op rather than an error. -/
theorem c9_rename_roundtrip (df : DF) (dataframes : Store) (a b : String)
    (_ha : a ∈ df.cols) (hb : b ∉ df.cols) :
    apply_transformations df [("RENAME", [a, b]), ("RENAME", [b, a])] dataframes =
      .ok df ∧
    ∀ (df2 : DF) (old new : String), old ∉ df2.cols →
      apply_transformations df2 [("RENAME", [old, new])] dataframes = .ok df2 := by
  constructor
  · simp [apply_transformations, applyOp, renameCol_roundtrip df a b hb]
  · intro df2 old new h
    simp [apply_transformations, applyOp, renameCol_absent df2 old new h]

/-- Witness for `c9_rename_roundtrip` on a table with column "a". -/
theorem c9_rename_roundtrip_witness :
    ("a" ∈ c9DF.cols) ∧ ("b" ∉ c9DF.cols) ∧
    (apply_transformations c9DF [("RENAME", ["a", "b"]), ("RENAME", ["b", "a"])] [] =
        .ok c9DF ∧
      ∀ (df2 : DF) (old new : String), old ∉ df2.cols →
        apply_transformations df2 [("RENAME", [old, new])] [] = .ok df2) :=
  ⟨by decide, by decide, c9_rename_roundtrip c9DF [] "a" "b" (by decide) (by decide)⟩

/-- The two clause lists agree with the sequential appends of the
source once split by emptiness of filter and select. -/
theorem simpleUrl_eq_ampJoin (base_url endpoint : String) (cfg : Config) :
    simpleUrl base_url endpoint cfg =
      base_url ++ endpoint ++ "?" ++ ampJoin (specClauses cfg) := by
  have hq1 : ("?" : String) ++ "$filter=" = "?$filter=" := rfl
  have hq2 : ("?" : String) ++ "$select=" = "?$select=" := rfl
  have hq3 : ("&" : String) ++ "$select=" = "&$select=" := rfl
  by_cases hf : cfg.filter = "" <;> by_cases hs : cfg.select = []
  · simp [simpleUrl, specClauses, ampJoin, hf, hs, String.append_assoc]
  · simp [simpleUrl, specClauses, ampJoin, hf, hs, String.append_assoc]
    rw [← hq2, String.append_assoc]
  · simp [simpleUrl, specClauses, ampJoin, hf, hs, String.append_assoc]
    rw [← hq1, String.append_assoc]
  · simp [simpleUrl, specClauses, ampJoin, hf, hs, String.append_assoc]
    rw [← hq1, ← hq3, String.append_assoc, String.append_assoc]

/-- C8: with `key_filter` absent the planner emits exactly one
descriptor, and its URL is the base and endpoint followed by the
non-empty clauses of the config — the verbatim filter predicate and
the verbatim comma-joined selection — joined by "&" only between two
present clauses. -/
theorem c8_single_descriptor (base_url endpoint : String) (cfg : Config)
    (dataframes : Store) (h : cfg.key_filter = none) :
    build_request_urls base_url endpoint cfg dataframes =
      some [base_url ++ endpoint ++ "?" ++ ampJoin (specClauses cfg)] := by
  have : build_request_urls base_url endpoint cfg dataframes =
      some [simpleUrl base_url endpoint cfg] := by
    unfold build_request_urls
    rw [h]
  rw [this, simpleUrl_eq_ampJoin]

/-- Witness for `c8_single_descriptor` on a config with both clauses
present. -/
theorem c8_single_descriptor_witness :
    (c8Cfg.key_filter = none) ∧
    build_request_urls "B/" "users" c8Cfg [] =
      some ["B/" ++ "users" ++ "?" ++ ampJoin (specClauses c8Cfg)] :=
  ⟨by decide, c8_single_descriptor "B/" "users" c8Cfg [] (by decide)⟩

/-- Concatenating the chunks restores the original list. -/
theorem chunkListAux_flatten {α : Type} (c : Nat) (hc : 0 < c) :
    ∀ (fuel : Nat) (xs : List α), xs.length ≤ fuel →
      (chunkListAux c fuel xs).flatten = xs := by
  intro fuel
  induction fuel with
  | zero =>
    intro xs h
    have hnil : xs = [] := List.eq_nil_of_length_eq_zero (Nat.le_zero.mp h)
    subst hnil
    rfl
  | succ n ih =>
    intro xs h
    match xs with
    | [] => rfl
    | x :: t =>
      have hlen : ((x :: t).drop c).length ≤ n := by
        simp only [List.length_drop, List.length_cons]
        simp only [List.length_cons] at h
        omega
      show ((x :: t).take c :: chunkListAux c n ((x :: t).drop c)).flatten = x :: t
      rw [List.flatten_cons, ih ((x :: t).drop c) hlen, List.take_append_drop]

/-- `chunkList` partitions: the chunks concatenate back to the list. -/
theorem chunkList_flatten {α : Type} (c : Nat) (hc : 0 < c) (xs : List α) :
    (chunkList c xs).flatten = xs :=
  chunkListAux_flatten c hc xs.length xs (Nat.le_refl _)

/-- Chunking into tens yields the rounded-up count of chunks. -/
theorem chunkListAux_length_ten {α : Type} :
    ∀ (fuel : Nat) (xs : List α), xs.length ≤ fuel →
      (chunkListAux 10 fuel xs).length = (xs.length + 9) / 10 := by
  intro fuel
  induction fuel with
  | zero =>
    intro xs h
    have hnil : xs = [] := List.eq_nil_of_length_eq_zero (Nat.le_zero.mp h)
    subst hnil
    simp [chunkListAux]
  | succ n ih =>
    intro xs h
    match xs with
    | [] => simp [chunkListAux]
    | x :: t =>
      have hlen : ((x :: t).drop 10).length ≤ n := by
        simp only [List.length_drop, List.length_cons]
        simp only [List.length_cons] at h
        omega
      have hrec := ih ((x :: t).drop 10) hlen
      show ((x :: t).take 10 :: chunkListAux 10 n ((x :: t).drop 10)).length =
        ((x :: t).length + 9) / 10
      rw [List.length_cons, hrec]
      simp only [List.length_drop, List.length_cons]
      omega

/-- `uniqueFirstAux` emits no duplicates and nothing already seen. -/
theorem uniqueFirstAux_nodup_fresh :
    ∀ (l seen : List String),
      (uniqueFirstAux seen l).Nodup ∧ ∀ x ∈ uniqueFirstAux seen l, x ∉ seen := by
  intro l
  induction l with
  | nil => intro seen; exact ⟨List.nodup_nil, by intro x hx; cases hx⟩
  | cons x t ih =>
    intro seen
    by_cases hx : x ∈ seen
    · simp only [uniqueFirstAux, if_pos hx]
      exact ih seen
    · simp only [uniqueFirstAux, if_neg hx]
      obtain ⟨hnd, hns⟩ := ih (x :: seen)
      refine ⟨List.nodup_cons.mpr ⟨?_, hnd⟩, ?_⟩
      · intro hmem
        exact (hns x hmem) (List.mem_cons_self x seen)
      · intro y hy
        rcases List.mem_cons.mp hy with rfl | hy2
        · exact hx
        · intro hys
          exact hns y hy2 (List.mem_cons_of_mem x hys)

/-- First-seen deduplication yields a duplicate-free list. -/
theorem uniqueFirst_nodup (l : List String) : (uniqueFirst l).Nodup :=
  (uniqueFirstAux_nodup_fresh l []).1

/-- A successful driving-value extraction is deduplicated. -/
theorem drivingIds_nodup (dataframes : Store) (driving_col : String)
    (ids : List String) (h : drivingIds dataframes driving_col = some ids) :
    ids.Nodup := by
  unfold drivingIds at h
  rcases hlu : List.lookup "df_users" dataframes with _ | df
  · rw [hlu] at h; simp at h
  · rw [hlu] at h
    simp only [Option.some_bind] at h
    rcases hgc : getColumn df driving_col with _ | col
    · rw [hgc] at h; simp at h
    · rw [hgc] at h
      simp only [Option.map_some'] at h
      cases h
      exact uniqueFirst_nodup _

/-- C4: on the dependent branch, for deduplicated driving values of
size N the planner emits exactly ceil(N/10) descriptors, one per
chunk in first-seen order; the chunks concatenate back to the value
sequence, so each value lands in exactly one descriptor's predicate;
zero values give zero descriptors. -/
theorem c4_chunked_descriptors (base_url endpoint k driving_col : String)
    (cfg : Config) (dataframes : Store) (ids : List String)
    (hk : cfg.key_filter = some k) (hk2 : k ≠ "")
    (hd : cfg.driving_view_col_name = some (some driving_col))
    (hids : drivingIds dataframes driving_col = some ids) :
    build_request_urls base_url endpoint cfg dataframes =
      some ((chunkList 10 ids).map (chunkUrl base_url endpoint cfg k)) ∧
    ((chunkList 10 ids).map (chunkUrl base_url endpoint cfg k)).length =
      (ids.length + 9) / 10 ∧
    (chunkList 10 ids).flatten = ids ∧
    ids.Nodup ∧
    (ids = [] → (chunkList 10 ids).map (chunkUrl base_url endpoint cfg k) = []) := by
  refine ⟨?_, ?_, ?_, ?_, ?_⟩
  · unfold build_request_urls
    rw [hk, hd]
    simp [hk2, hids]
  · rw [List.length_map, chunkList]
    exact chunkListAux_length_ten ids.length ids (Nat.le_refl _)
  · exact chunkList_flatten 10 (by omega) ids
  · exact drivingIds_nodup dataframes driving_col ids hids
  · intro h
    subst h
    rfl

/-- Witness for `c4_chunked_descriptors`: twelve distinct driving
values (after dropping a null and a duplicate) yield two chunks. -/
theorem c4_chunked_descriptors_witness :
    (c4Cfg.key_filter = some "user_id") ∧ ("user_id" ≠ "") ∧
    (c4Cfg.driving_view_col_name = some (some "id")) ∧
    (drivingIds c4Store "id" = some c4Ids) ∧
    (build_request_urls "B/" "orders" c4Cfg c4Store =
        some ((chunkList 10 c4Ids).map (chunkUrl "B/" "orders" c4Cfg "user_id")) ∧
      ((chunkList 10 c4Ids).map (chunkUrl "B/" "orders" c4Cfg "user_id")).length =
        (c4Ids.length + 9) / 10 ∧
      (chunkList 10 c4Ids).flatten = c4Ids ∧
      c4Ids.Nodup ∧
      (c4Ids = [] →
        (chunkList 10 c4Ids).map (chunkUrl "B/" "orders" c4Cfg "user_id") = [])) :=
  ⟨by decide, by decide, by decide, by decide,
   c4_chunked_descriptors "B/" "orders" "user_id" "id" c4Cfg c4Store c4Ids
     (by decide) (by decide) (by decide) (by decide)⟩

/-- Locating a mapping by its (duplicate-free) output label finds the
mapping itself. -/
theorem colIdx_map_snd_of_nodup :
    ∀ (ks : List (String × String)) (p : String × String),
      (ks.map Prod.snd).Nodup → p ∈ ks →
      ∃ i, colIdx (ks.map Prod.snd) p.2 = some i ∧ ks[i]? = some p := by
  intro ks
  induction ks with
  | nil => intro p _ hp; cases hp
  | cons q t ih =>
    intro p hnd hp
    simp only [List.map_cons, List.nodup_cons] at hnd
    by_cases hq : p.2 = q.2
    · have hpq : p = q := by
        rcases List.mem_cons.mp hp with rfl | hpt
        · rfl
        · exact absurd (hq ▸ List.mem_map_of_mem Prod.snd hpt) hnd.1
      refine ⟨0, ?_, by simp [hpq]⟩
      simp [colIdx, List.findIdx?_cons, hpq]
    · have hpt : p ∈ t := by
        rcases List.mem_cons.mp hp with rfl | hpt
        · exact absurd rfl hq
        · exact hpt
      obtain ⟨i, hci, hgi⟩ := ih p hnd.2 hpt
      refine ⟨i + 1, ?_, by simpa using hgi⟩
      simp only [colIdx, List.map_cons, List.findIdx?_cons]
      have : (q.2 == p.2) = false := by
        simp [beq_iff_eq]
        exact fun he => hq he.symm
      simp only [colIdx] at hci
      rw [this]
      simp [List.findIdx?_succ, hci]

/-- C7 (amended): the formatter returns exactly the mapped source
columns that exist, renamed to their output labels in mapping order,
with each output column equal to its source column cell-for-cell and
row count preserved — provided at least one mapped source column
exists; when none does, the result is the empty zero-row frame. -/
theorem c7_format_projection (df : DF) (ms : List (String × String))
    (hne : ms.filter (fun m => df.cols.contains m.1) ≠ [])
    (hnodup : ((ms.filter fun m => df.cols.contains m.1).map Prod.snd).Nodup) :
    (format_output_columns df ms).cols =
      (ms.filter fun m => df.cols.contains m.1).map Prod.snd ∧
    (format_output_columns df ms).rows.length = df.rows.length ∧
    (∀ p ∈ ms.filter (fun m => df.cols.contains m.1),
      getColumn (format_output_columns df ms) p.2 =
        some (df.rows.map fun row => cellAt df.cols p.1 row)) ∧
    (∀ (df2 : DF) (ms2 : List (String × String)),
      ms2.filter (fun m => df2.cols.contains m.1) = [] →
      format_output_columns df2 ms2 = ⟨[], []⟩) := by
  have hfmt : format_output_columns df ms =
      { cols := (ms.filter fun m => df.cols.contains m.1).map Prod.snd
        rows := df.rows.map fun row =>
          (ms.filter fun m => df.cols.contains m.1).map fun m =>
            cellAt df.cols m.1 row } := by
    unfold format_output_columns
    rw [if_neg]
    intro hemp
    exact hne (List.isEmpty_iff.mp hemp)
  refine ⟨by rw [hfmt], by rw [hfmt]; simp, ?_, ?_⟩
  · intro p hp
    obtain ⟨i, hci, hgi⟩ :=
      colIdx_map_snd_of_nodup (ms.filter fun m => df.cols.contains m.1) p hnodup hp
    rw [hfmt]
    simp only [getColumn, hci, Option.map_some']
    congr 1
    rw [List.map_map]
    apply List.map_congr_left
    intro row _
    simp only [Function.comp_apply]
    rw [List.getD_eq_getElem?_getD, List.getElem?_map, hgi]
    rfl
  · intro df2 ms2 h2
    unfold format_output_columns
    rw [if_pos]
    exact List.isEmpty_iff.mpr h2

/-- Witness for `c7_format_projection` on the spec's example: mapping
[("x", "X"), ("y", "Y")] over a table holding only column "x". -/
theorem c7_format_projection_witness :
    (([("x", "X"), ("y", "Y")].filter
        (fun m => (DF.mk ["x"] [[Value.vint 1], [Value.vint 2]]).cols.contains m.1)) ≠ []) ∧
    ((([("x", "X"), ("y", "Y")].filter
        (fun m => (DF.mk ["x"] [[Value.vint 1], [Value.vint 2]]).cols.contains m.1)).map
        Prod.snd).Nodup) ∧
    ((format_output_columns ⟨["x"], [[Value.vint 1], [Value.vint 2]]⟩
        [("x", "X"), ("y", "Y")]).cols =
      ([("x", "X"), ("y", "Y")].filter
        (fun m => (DF.mk ["x"] [[Value.vint 1], [Value.vint 2]]).cols.contains m.1)).map
        Prod.snd ∧
     (format_output_columns ⟨["x"], [[Value.vint 1], [Value.vint 2]]⟩
        [("x", "X"), ("y", "Y")]).rows.length =
      (DF.mk ["x"] [[Value.vint 1], [Value.vint 2]]).rows.length ∧
     (∀ p ∈ [("x", "X"), ("y", "Y")].filter
        (fun m => (DF.mk ["x"] [[Value.vint 1], [Value.vint 2]]).cols.contains m.1),
        getColumn (format_output_columns ⟨["x"], [[Value.vint 1], [Value.vint 2]]⟩
          [("x", "X"), ("y", "Y")]) p.2 =
          some ((DF.mk ["x"] [[Value.vint 1], [Value.vint 2]]).rows.map fun row =>
            cellAt (DF.mk ["x"] [[Value.vint 1], [Value.vint 2]]).cols p.1 row)) ∧
     (∀ (df2 : DF) (ms2 : List (String × String)),
        ms2.filter (fun m => df2.cols.contains m.1) = [] →
        format_output_columns df2 ms2 = ⟨[], []⟩)) :=
  ⟨by decide, by decide,
   c7_format_projection ⟨["x"], [[Value.vint 1], [Value.vint 2]]⟩
     [("x", "X"), ("y", "Y")] (by decide) (by decide)⟩

/-- Cleaning a join key leaves the column labels unchanged. -/
theorem clean_cols (df : DF) (k : String) : (clean_join_key df k).cols = df.cols := by
  unfold clean_join_key
  split
  · rfl
  · rfl

/-- When the key column exists, cleaning rewrites each row cell-wise. -/
theorem clean_rows_of_mem (df : DF) (k : String) (h : k ∈ df.cols) :
    (clean_join_key df k).rows = df.rows.map fun row =>
      List.zipWith (fun lbl v => if lbl = k then
        fillWith (Value.vstr "") (Value.vstr (replaceMarkers (pyStr v))) else v)
        df.cols row := by
  unfold clean_join_key
  rw [if_neg]
  · rfl
  · simp [List.contains, List.elem_eq_mem, h]

/-- A found column index is in bounds and points at the label. -/
theorem colIdx_some : ∀ (cols : List String) (c : String) (i : Nat),
    colIdx cols c = some i → ∃ hlt : i < cols.length, cols[i] = c := by
  intro cols
  induction cols with
  | nil => intro c i h; simp [colIdx] at h
  | cons x t ih =>
    intro c i h
    simp only [colIdx, List.findIdx?_cons] at h
    by_cases hx : x = c
    · rw [if_pos (by simp [hx])] at h
      have h0 : i = 0 := by
        cases h
        rfl
      subst h0
      exact ⟨Nat.succ_pos t.length, by simpa using hx⟩
    · rw [if_neg (by simp [hx])] at h
      rw [List.findIdx?_succ] at h
      cases hf : List.findIdx? (fun y => y == c) t with
      | none => rw [hf] at h; simp at h
      | some n =>
        rw [hf] at h
        simp only [Option.map_some'] at h
        have hni : n + 1 = i := by
          cases h
          rfl
        obtain ⟨hlt, hc⟩ := ih c n (by simpa [colIdx] using hf)
        subst hni
        exact ⟨by simp only [List.length_cons]; omega, by simpa using hc⟩

/-- A present label always has a column index. -/
theorem colIdx_of_mem {cols : List String} {c : String} (h : c ∈ cols) :
    ∃ i, colIdx cols c = some i := by
  unfold colIdx
  cases hf : cols.findIdx? (· == c) with
  | some i => exact ⟨i, rfl⟩
  | none =>
    rw [List.findIdx?_eq_none_iff] at hf
    have := hf c h
    simp at this

/-- Column-mapped rewriting, read back at the column's index. -/
theorem getD_zipWith_mapCol (cols : List String) (k : String) (f : Value → Value)
    (i : Nat) (hlt : i < cols.length) (hk : cols[i] = k) (row : List Value)
    (hrl : row.length = cols.length) :
    (List.zipWith (fun lbl v => if lbl = k then f v else v) cols row).getD i
      Value.vnull = f (row.getD i Value.vnull) := by
  have hri : i < row.length := by omega
  rw [List.getD_eq_getElem?_getD, List.getD_eq_getElem?_getD, List.getElem?_zipWith,
    List.getElem?_eq_getElem hlt, List.getElem?_eq_getElem hri]
  simp [hk]

/-- The cleaned key column is the stringified, marker-collapsed image
of the raw key column. -/
theorem getColumn_clean (df : DF) (k : String) (i : Nat)
    (hk : k ∈ df.cols) (hci : colIdx df.cols k = some i)
    (hw : ∀ row ∈ df.rows, row.length = df.cols.length) :
    getColumn df k = some (df.rows.map fun row => row.getD i Value.vnull) ∧
    getColumn (clean_join_key df k) k =
      some ((df.rows.map fun row => row.getD i Value.vnull).map
        fun v => Value.vstr (normKey v)) := by
  obtain ⟨hlt, hcl⟩ := colIdx_some df.cols k i hci
  constructor
  · simp [getColumn, hci]
  · unfold getColumn
    rw [clean_cols, hci]
    simp only [Option.map_some']
    congr 1
    rw [clean_rows_of_mem df k hk, List.map_map, List.map_map]
    apply List.map_congr_left
    intro row hrow
    simp only [Function.comp_apply]
    rw [getD_zipWith_mapCol df.cols k _ i hlt hcl row (hw row hrow)]
    rfl

/-- C5: `safe_merge` is a left outer join on the normalized keys:
both key columns are stringified with the null markers collapsed to
"", every working-table row survives (null-padded when unmatched,
fanned out over duplicate right keys), and result membership is
governed exactly by equality of the normalized key strings — in
particular a null left key matches a right key exactly when the right
key also normalizes to "". -/
theorem c5_join_left_outer (l r : DF) (lk rk : String) (m : DF)
    (hlk : lk ∈ l.cols) (hrk : rk ∈ r.cols)
    (_hdisj : ∀ c ∈ r.cols, c ∉ l.cols)
    (hlw : ∀ row ∈ l.rows, row.length = l.cols.length)
    (hrw : ∀ row ∈ r.rows, row.length = r.cols.length)
    (hm : safe_merge l r lk rk = some m) :
    JoinSpec l r lk rk m ∧
    (∃ kcol, getColumn l lk = some kcol ∧
      getColumn (clean_join_key l lk) lk =
        some (kcol.map fun v => Value.vstr (normKey v))) ∧
    (∃ kcol, getColumn r rk = some kcol ∧
      getColumn (clean_join_key r rk) rk =
        some (kcol.map fun v => Value.vstr (normKey v))) ∧
    normKey Value.vnull = "" ∧ normKey (Value.vstr "nan") = "" ∧
    normKey (Value.vstr "<NA>") = "" ∧ normKey (Value.vstr "None") = "" ∧
    (∀ w : Value, (normKey Value.vnull = normKey w ↔ normKey w = "")) := by
  obtain ⟨i, hci⟩ := colIdx_of_mem hlk
  obtain ⟨j, hcj⟩ := colIdx_of_mem hrk
  have hLc : (clean_join_key l lk).cols = l.cols := clean_cols l lk
  have hRc : (clean_join_key r rk).cols = r.cols := clean_cols r rk
  have hkeyL : ∀ row, cellAt (clean_join_key l lk).cols lk row =
      row.getD i Value.vnull := by
    intro row
    unfold cellAt
    rw [hLc, hci]
  have hkeyR : ∀ row, cellAt (clean_join_key r rk).cols rk row =
      row.getD j Value.vnull := by
    intro row
    unfold cellAt
    rw [hRc, hcj]
  have hm' := hm
  unfold safe_merge mergeLeft at hm'
  rw [hLc, hRc] at hm'
  simp only [hci, hcj, Option.some.injEq] at hm'
  have hfilt : ∀ lrow : List Value,
      ((clean_join_key r rk).rows.filter fun rrow =>
        cellAt (clean_join_key r rk).cols rk rrow ==
          cellAt (clean_join_key l lk).cols lk lrow) =
      rightMatches (clean_join_key r rk) j (lrow.getD i Value.vnull) := by
    intro lrow
    unfold rightMatches
    apply List.filter_congr
    intro rrow _
    rw [hkeyR, hkeyL]
  refine ⟨⟨?_, ?_, ?_, ?_, ?_⟩, ?_, ?_, rfl, rfl, rfl, rfl, ?_⟩
  · rw [← hm']
  · rw [← hm']
    show ((clean_join_key l lk).rows.flatMap _).length = _
    rw [List.length_flatMap]
    congr 1
    apply List.map_congr_left
    intro lrow _
    simp only [Function.comp_apply]
    rw [hfilt lrow]
    cases hE2 : rightMatches (clean_join_key r rk) j (lrow.getD i Value.vnull) with
    | nil => simp
    | cons a as =>
      simp only [List.isEmpty_cons, if_false, Bool.false_eq_true, List.length_map,
        List.length_cons]
      omega
  · intro lrow hmem
    rw [← hm']
    cases hE2 : rightMatches (clean_join_key r rk) j (lrow.getD i Value.vnull) with
    | nil =>
      exact ⟨List.replicate r.cols.length Value.vnull,
        List.mem_flatMap.mpr ⟨lrow, hmem, by rw [hE2]; simp⟩⟩
    | cons a as =>
      exact ⟨a, List.mem_flatMap.mpr ⟨lrow, hmem, by rw [hE2]; simp⟩⟩
  · intro lrow hl rrow hr hkey
    rw [hkeyL, hkeyR] at hkey
    have hmm : rrow ∈ rightMatches (clean_join_key r rk) j (lrow.getD i Value.vnull) := by
      unfold rightMatches
      exact List.mem_filter.mpr ⟨hr, beq_iff_eq.mpr hkey.symm⟩
    have hne : rightMatches (clean_join_key r rk) j (lrow.getD i Value.vnull) ≠ [] :=
      List.ne_nil_of_mem hmm
    rw [← hm']
    refine List.mem_flatMap.mpr ⟨lrow, hl, ?_⟩
    rw [if_neg (by simpa [List.isEmpty_iff] using hne)]
    exact List.mem_map_of_mem _ hmm
  · intro row hrow
    rw [← hm'] at hrow
    obtain ⟨lrow, hl, hin⟩ := List.mem_flatMap.mp hrow
    refine ⟨lrow, hl, ?_⟩
    by_cases hE : (rightMatches (clean_join_key r rk) j
        (lrow.getD i Value.vnull)).isEmpty
    · rw [if_pos hE] at hin
      left
      refine ⟨?_, List.mem_singleton.mp hin⟩
      rw [hfilt lrow]
      exact List.isEmpty_iff.mp hE
    · rw [if_neg hE] at hin
      right
      obtain ⟨rrow, hrm, heq⟩ := List.mem_map.mp hin
      have hf2 : rrow ∈ (clean_join_key r rk).rows ∧
          (rrow.getD j Value.vnull == lrow.getD i Value.vnull) = true := by
        unfold rightMatches at hrm
        exact List.mem_filter.mp hrm
      exact ⟨rrow, hf2.1, by rw [hkeyR, hkeyL]; exact beq_iff_eq.mp hf2.2, heq.symm⟩
  · exact ⟨_, getColumn_clean l lk i hlk hci hlw⟩
  · exact ⟨_, getColumn_clean r rk j hrk hcj hrw⟩
  · intro w
    rw [show normKey Value.vnull = "" from rfl]
    exact eq_comm

/-- Witness for `c5_join_left_outer` on the spec's example tables. -/
theorem c5_join_left_outer_witness :
    ("k" ∈ c5Left.cols) ∧ ("k2" ∈ c5Right.cols) ∧
    (∀ c ∈ c5Right.cols, c ∉ c5Left.cols) ∧
    (∀ row ∈ c5Left.rows, row.length = c5Left.cols.length) ∧
    (∀ row ∈ c5Right.rows, row.length = c5Right.cols.length) ∧
    (safe_merge c5Left c5Right "k" "k2" = some c5Merged) ∧
    (JoinSpec c5Left c5Right "k" "k2" c5Merged ∧
      (∃ kcol, getColumn c5Left "k" = some kcol ∧
        getColumn (clean_join_key c5Left "k") "k" =
          some (kcol.map fun v => Value.vstr (normKey v))) ∧
      (∃ kcol, getColumn c5Right "k2" = some kcol ∧
        getColumn (clean_join_key c5Right "k2") "k2" =
          some (kcol.map fun v => Value.vstr (normKey v))) ∧
      normKey Value.vnull = "" ∧ normKey (Value.vstr "nan") = "" ∧
      normKey (Value.vstr "<NA>") = "" ∧ normKey (Value.vstr "None") = "" ∧
      (∀ w : Value, (normKey Value.vnull = normKey w ↔ normKey w = ""))) :=
  ⟨by decide, by decide, by decide, by decide, by decide, by decide,
   c5_join_left_outer c5Left c5Right "k" "k2" c5Merged
     (by decide) (by decide) (by decide) (by decide) (by decide) (by decide)⟩

/-- A page step either keeps the token state (no 401) or performs
exactly one refresh and retries the same URL once. -/
theorem pageStep_cases (serve : String → Nat → Resp) (ep u : String) (st : St)
    (resp : Resp) (st2 : St) (tr : List TraceEntry)
    (h : pageStep serve ep u st = .ok (resp, st2, tr)) :
    (st2 = st ∧ tr = [(u, st.tok)]) ∨
    (st2 = ⟨st.next, st.next + 1⟩ ∧ tr = [(u, st.tok), (u, st.next)]) := by
  simp only [pageStep] at h
  split at h
  · split at h
    · cases h
    · cases h
      exact Or.inr ⟨rfl, rfl⟩
  · split at h
    · cases h
    · cases h
      exact Or.inl ⟨rfl, rfl⟩

/-- Across a whole descriptor, the token-supply counter moves forward
by at most one step per trace growth of a page: refreshes stay
bounded by the number of pages fetched. -/
theorem fetchLoop_refresh_bound (serve : String → Nat → Resp) (ep : String) :
    ∀ (fuel : Nat) (url : Option String) (st : St)
      (recs : List Record) (st2 : St) (tr : List TraceEntry),
      fetchLoop serve ep fuel url st = .ok (recs, st2, tr) →
      st.next ≤ st2.next ∧ 2 * (st2.next - st.next) ≤ tr.length := by
  intro fuel
  induction fuel with
  | zero =>
    intro url st recs st2 tr h
    rw [show fetchLoop serve ep 0 url st = .ok ([], st, []) from rfl] at h
    cases h
    exact ⟨Nat.le_refl _, by simp⟩
  | succ n ih =>
    intro url st recs st2 tr h
    match url with
    | none =>
      rw [show fetchLoop serve ep (n + 1) none st = .ok ([], st, []) from rfl] at h
      cases h
      exact ⟨Nat.le_refl _, by simp⟩
    | some u =>
      simp only [fetchLoop] at h
      by_cases hu : u = ""
      · rw [if_pos hu] at h
        cases h
        exact ⟨Nat.le_refl _, by simp⟩
      · rw [if_neg hu] at h
        cases hps : pageStep serve ep u st with
        | error e => simp only [hps] at h; exact Except.noConfusion h
        | ok t =>
          obtain ⟨resp, stMid, tr1⟩ := t
          simp only [hps] at h
          cases hrec : fetchLoop serve ep n resp.nextLink stMid with
          | error e => simp only [hrec] at h; exact Except.noConfusion h
          | ok t2 =>
            obtain ⟨recs2, st3, tr2⟩ := t2
            simp only [hrec] at h
            cases h
            obtain ⟨hmid, hlen⟩ := ih resp.nextLink stMid recs2 st2 tr2 hrec
            rcases pageStep_cases serve ep u st resp stMid tr1 hps with
              ⟨h1, h2⟩ | ⟨h1, h2⟩ <;> subst h1 <;> subst h2 <;>
              simp only [List.length_append, List.length_cons, List.length_nil]
            · omega
            · rw [show ({ tok := st.next, next := st.next + 1 } : St).next =
                  st.next + 1 from rfl] at hmid hlen
              omega

/-- C1 (amended): the retry cap is per page request, not per
descriptor. Each page request refreshes at most once and adds at most
two trace entries; a 401 answered by a non-200 on the once-retried
same URL is fatal with that status; a 401 answered by a 200 succeeds
after exactly one refresh, reissuing the same URL with the fresh
token; and over a whole descriptor the number of refreshes is bounded
by the number of pages (twice the refreshes never exceeds the trace
length), not by one. -/
theorem c1_refresh_policy (serve : String → Nat → Resp) (ep u : String) (st : St) :
    (∀ resp st2 tr, pageStep serve ep u st = .ok (resp, st2, tr) →
      st2.next ≤ st.next + 1 ∧ tr.length ≤ 2) ∧
    ((serve u st.tok).status = 401 → (serve u st.next).status ≠ 200 →
      pageStep serve ep u st = .error (ep, (serve u st.next).status)) ∧
    ((serve u st.tok).status = 401 → (serve u st.next).status = 200 →
      pageStep serve ep u st =
        .ok (serve u st.next, ⟨st.next, st.next + 1⟩, [(u, st.tok), (u, st.next)])) ∧
    (∀ fuel url recs st2 tr,
      fetchLoop serve ep fuel url st = .ok (recs, st2, tr) →
      st.next ≤ st2.next ∧ 2 * (st2.next - st.next) ≤ tr.length) := by
  refine ⟨?_, ?_, ?_, ?_⟩
  · intro resp st2 tr h
    rcases pageStep_cases serve ep u st resp st2 tr h with ⟨h1, h2⟩ | ⟨h1, h2⟩ <;>
      subst h1 <;> subst h2 <;> simp
  · intro h401 h200
    simp [pageStep, h401, h200]
  · intro h401 h200
    simp [pageStep, h401, h200]
  · intro fuel url recs st2 tr h
    exact fetchLoop_refresh_bound serve ep fuel url st recs st2 tr h

/-- Witness for `c1_refresh_policy`: a server that answers 401 to
every token makes the once-retried request fatal. -/
theorem c1_refresh_policy_witness :
    ((c1BadServe "u" 0).status = 401) ∧ ((c1BadServe "u" 1).status ≠ 200) ∧
    pageStep c1BadServe "e" "u" ⟨0, 1⟩ = .error ("e", 401) :=
  ⟨by decide, by decide,
   (c1_refresh_policy c1BadServe "e" "u" ⟨0, 1⟩).2.1 (by decide) (by decide)⟩

/-- The empty trace satisfies the token invariants. -/
theorem traceTokens_nil (st : St) (h : st.tok < st.next) : TraceTokens st st [] :=
  ⟨Nat.le_refl _, Nat.le_refl _, h, List.Pairwise.nil, by intro e he; cases he⟩

/-- Token invariants compose along concatenated traces. -/
theorem traceTokens_append (st1 st2 st3 : St) (tr1 tr2 : List TraceEntry)
    (h1 : TraceTokens st1 st2 tr1) (h2 : TraceTokens st2 st3 tr2) :
    TraceTokens st1 st3 (tr1 ++ tr2) := by
  obtain ⟨ha1, hb1, _hc1, hp1, he1⟩ := h1
  obtain ⟨ha2, hb2, hc2, hp2, he2⟩ := h2
  refine ⟨Nat.le_trans ha1 ha2, Nat.le_trans hb1 hb2, hc2, ?_, ?_⟩
  · rw [List.pairwise_append]
    exact ⟨hp1, hp2, fun a hax b hbx =>
      Nat.le_trans (he1 a hax).2 (he2 b hbx).1⟩
  · intro e he
    rcases List.mem_append.mp he with hx | hx
    · exact ⟨(he1 e hx).1, Nat.le_trans (he1 e hx).2 ha2⟩
    · exact ⟨Nat.le_trans ha1 (he2 e hx).1, (he2 e hx).2⟩

/-- One page step preserves the token invariants. -/
theorem pageStep_traceTokens (serve : String → Nat → Resp) (ep u : String)
    (st : St) (resp : Resp) (st2 : St) (tr : List TraceEntry)
    (hwf : st.tok < st.next) (h : pageStep serve ep u st = .ok (resp, st2, tr)) :
    TraceTokens st st2 tr := by
  rcases pageStep_cases serve ep u st resp st2 tr h with ⟨h1, h2⟩ | ⟨h1, h2⟩ <;>
    subst h1 <;> subst h2
  · refine ⟨Nat.le_refl _, Nat.le_refl _, hwf, by simp, ?_⟩
    intro e he
    rw [List.mem_singleton] at he
    subst he
    exact ⟨Nat.le_refl _, Nat.le_refl _⟩
  · refine ⟨Nat.le_of_lt hwf, Nat.le_succ _, Nat.lt_succ_self _, ?_, ?_⟩
    · simp only [List.pairwise_cons, List.mem_singleton, List.Pairwise.nil]
      constructor
      · intro a ha
        subst ha
        exact Nat.le_of_lt hwf
      · simp
    · intro e he
      rcases List.mem_cons.mp he with rfl | he2
      · exact ⟨Nat.le_refl _, Nat.le_of_lt hwf⟩
      · rw [List.mem_singleton] at he2
        subst he2
        exact ⟨Nat.le_of_lt hwf, Nat.le_refl _⟩

/-- The pagination loop preserves the token invariants. -/
theorem fetchLoop_traceTokens (serve : String → Nat → Resp) (ep : String) :
    ∀ (fuel : Nat) (url : Option String) (st : St)
      (recs : List Record) (st2 : St) (tr : List TraceEntry),
      st.tok < st.next → fetchLoop serve ep fuel url st = .ok (recs, st2, tr) →
      TraceTokens st st2 tr := by
  intro fuel
  induction fuel with
  | zero =>
    intro url st recs st2 tr hwf h
    rw [show fetchLoop serve ep 0 url st = .ok ([], st, []) from rfl] at h
    cases h
    exact traceTokens_nil st hwf
  | succ n ih =>
    intro url st recs st2 tr hwf h
    match url with
    | none =>
      rw [show fetchLoop serve ep (n + 1) none st = .ok ([], st, []) from rfl] at h
      cases h
      exact traceTokens_nil st hwf
    | some u =>
      simp only [fetchLoop] at h
      by_cases hu : u = ""
      · rw [if_pos hu] at h
        cases h
        exact traceTokens_nil st hwf
      · rw [if_neg hu] at h
        cases hps : pageStep serve ep u st with
        | error e => simp only [hps] at h; exact Except.noConfusion h
        | ok t =>
          obtain ⟨resp, stMid, tr1⟩ := t
          simp only [hps] at h
          cases hrec : fetchLoop serve ep n resp.nextLink stMid with
          | error e => simp only [hrec] at h; exact Except.noConfusion h
          | ok t2 =>
            obtain ⟨recs2, st3, tr2⟩ := t2
            simp only [hrec] at h
            cases h
            have hstep := pageStep_traceTokens serve ep u st resp stMid tr1 hwf hps
            have hrest := ih resp.nextLink stMid recs2 st2 tr2 hstep.2.2.1 hrec
            exact traceTokens_append st stMid st2 tr1 tr2 hstep hrest

/-- The descriptor loop preserves the token invariants. -/
theorem runUrls_traceTokens (serve : String → Nat → Resp) (fuel : Nat)
    (ep : String) :
    ∀ (urls : List String) (st : St)
      (recs : List Record) (st2 : St) (tr : List TraceEntry),
      st.tok < st.next → runUrls serve fuel ep urls st = .ok (recs, st2, tr) →
      TraceTokens st st2 tr := by
  intro urls
  induction urls with
  | nil =>
    intro st recs st2 tr hwf h
    rw [show runUrls serve fuel ep [] st = .ok ([], st, []) from rfl] at h
    cases h
    exact traceTokens_nil st hwf
  | cons u rest ih =>
    intro st recs st2 tr hwf h
    simp only [runUrls] at h
    cases hf : fetch_data_with_pagination serve fuel u ep st with
    | error e => simp only [hf] at h; exact Except.noConfusion h
    | ok t =>
      obtain ⟨recs1, stMid, tr1⟩ := t
      simp only [hf] at h
      cases hrec : runUrls serve fuel ep rest stMid with
      | error e => simp only [hrec] at h; exact Except.noConfusion h
      | ok t2 =>
        obtain ⟨recs2, st3, tr2⟩ := t2
        simp only [hrec] at h
        cases h
        have hstep := fetchLoop_traceTokens serve ep fuel (some u) st recs1 stMid
          tr1 hwf hf
        have hrest := ih stMid recs2 st2 tr2 hstep.2.2.1 hrec
        exact traceTokens_append st stMid st2 tr1 tr2 hstep hrest

/-- The endpoint loop preserves the token invariants. -/
theorem runEndpoints_traceTokens (serve : String → Nat → Resp) (fuel : Nat) :
    ∀ (endpoints : List (String × List String)) (st : St)
      (st2 : St) (tr : List TraceEntry),
      st.tok < st.next → runEndpoints serve fuel endpoints st = .ok (st2, tr) →
      TraceTokens st st2 tr := by
  intro endpoints
  induction endpoints with
  | nil =>
    intro st st2 tr hwf h
    rw [show runEndpoints serve fuel [] st = .ok (st, []) from rfl] at h
    cases h
    exact traceTokens_nil st hwf
  | cons e rest ih =>
    intro st st2 tr hwf h
    obtain ⟨name, urls⟩ := e
    simp only [runEndpoints] at h
    cases hf : runUrls serve fuel name urls st with
    | error e2 => simp only [hf] at h; exact Except.noConfusion h
    | ok t =>
      obtain ⟨recs1, stMid, tr1⟩ := t
      simp only [hf] at h
      cases hrec : runEndpoints serve fuel rest stMid with
      | error e2 => simp only [hrec] at h; exact Except.noConfusion h
      | ok t2 =>
        obtain ⟨st3, tr2⟩ := t2
        simp only [hrec] at h
        cases h
        have hstep := runUrls_traceTokens serve fuel name urls st recs1 stMid
          tr1 hwf hf
        have hrest := ih stMid st2 tr2 hstep.2.2.1 hrec
        exact traceTokens_append st stMid st2 tr1 tr2 hstep hrest

/-- C10: the refreshed credential propagates through the run. The
token state threads from each request to every later one — later
pages, later descriptors, later endpoints — so the tokens along the
whole run's request trace never decrease, stay between the starting
and final bearer token, and once any request carries a token newer
than the one acquired at pipeline start, every subsequent request
does too. -/
theorem c10_token_renewal_propagates (serve : String → Nat → Resp) (fuel : Nat)
    (endpoints : List (String × List String)) (st st2 : St) (tr : List TraceEntry)
    (hwf : st.tok < st.next)
    (hrun : runEndpoints serve fuel endpoints st = .ok (st2, tr)) :
    TraceTokens st st2 tr ∧
    (∀ i1 i2 : Nat, i1 ≤ i2 → i2 < tr.length →
      (tr.getD i1 ("", 0)).2 ≤ (tr.getD i2 ("", 0)).2) ∧
    (∀ i1 i2 : Nat, i1 ≤ i2 → i2 < tr.length →
      st.tok < (tr.getD i1 ("", 0)).2 → st.tok < (tr.getD i2 ("", 0)).2) := by
  have ht := runEndpoints_traceTokens serve fuel endpoints st st2 tr hwf hrun
  have hmono : ∀ i1 i2 : Nat, i1 ≤ i2 → i2 < tr.length →
      (tr.getD i1 ("", 0)).2 ≤ (tr.getD i2 ("", 0)).2 := by
    intro i1 i2 hij hj
    rcases Nat.lt_or_ge i1 i2 with hlt | hge
    · have hi : i1 < tr.length := Nat.lt_trans hlt hj
      have hp := List.pairwise_iff_getElem.mp ht.2.2.2.1 i1 i2 hi hj hlt
      rw [List.getD_eq_getElem?_getD, List.getD_eq_getElem?_getD,
        List.getElem?_eq_getElem hi, List.getElem?_eq_getElem hj]
      exact hp
    · have heq : i1 = i2 := Nat.le_antisymm hij hge
      subst heq
      exact Nat.le_refl _
  exact ⟨ht, hmono, fun i1 i2 hij hj hlt =>
    Nat.lt_of_lt_of_le hlt (hmono i1 i2 hij hj)⟩

/-- Witness for `c10_token_renewal_propagates`: a 401 on the first
endpoint's request refreshes the token, and the second endpoint's
request is issued with the renewed token 1, not the initial token 0. -/
theorem c10_token_renewal_propagates_witness :
    ((0 : Nat) < 1) ∧
    (runEndpoints c10Serve 3 c10Endpoints ⟨0, 1⟩ =
      .ok (⟨1, 2⟩, [("u1", 0), ("u1", 1), ("u2", 1)])) ∧
    (TraceTokens ⟨0, 1⟩ ⟨1, 2⟩ [("u1", 0), ("u1", 1), ("u2", 1)] ∧
      (∀ i1 i2 : Nat, i1 ≤ i2 →
        i2 < ([("u1", 0), ("u1", 1), ("u2", 1)] : List TraceEntry).length →
        (([("u1", 0), ("u1", 1), ("u2", 1)] : List TraceEntry).getD i1 ("", 0)).2 ≤
          (([("u1", 0), ("u1", 1), ("u2", 1)] : List TraceEntry).getD i2 ("", 0)).2) ∧
      (∀ i1 i2 : Nat, i1 ≤ i2 →
        i2 < ([("u1", 0), ("u1", 1), ("u2", 1)] : List TraceEntry).length →
        (0 : Nat) < (([("u1", 0), ("u1", 1), ("u2", 1)] : List TraceEntry).getD
          i1 ("", 0)).2 →
        (0 : Nat) < (([("u1", 0), ("u1", 1), ("u2", 1)] : List TraceEntry).getD
          i2 ("", 0)).2)) :=
  ⟨by decide, by decide,
   c10_token_renewal_propagates c10Serve 3 c10Endpoints ⟨0, 1⟩ ⟨1, 2⟩
     [("u1", 0), ("u1", 1), ("u2", 1)] (by decide) (by decide)⟩
